import Mathlib

/-!
# Verification of the Morphic conversation-reconciliation client

Shallow embedding of the conversation-state engine of this repository:

* the two Chat-orchestration variants (manual replay strategy and
  server-delegated strategy) with their `handleUpdateAndReloadMessage`
  and `handleReloadFrom` handlers and `prepareSendMessagesRequest`;
* the section builder (the `sections` memo, called `buildSections` in
  the specification);
* the message-conversion helpers `convertMessageForDB`,
  `extractTitleFromMessage` and `getTextFromParts`;
* the `parts` table check constraints of the database schema.

Modelling conventions:

* timestamps are natural numbers; the epoch sentinel
  `new Date(0).toISOString()` is modelled as `0`, and the optional
  `createdAt` field as `Option Nat`;
* the freshly generated id (`generateUUID` / `generateId`) and the
  current time (`new Date()`) are passed as explicit parameters;
* the asynchronous remote calls (`deleteTrailingMessages`, `reload`,
  `regenerate`) are modelled by emitting events in execution order,
  with a record of outcome flags standing for which awaited remote
  call succeeds; a failing call makes the handler take its catch
  branch (the interpolated error text of the thrown error is
  abstracted away, keeping the fixed prefix of the toast message);
* JavaScript string falsiness (`!s` true exactly on the empty string)
  is modelled by explicit comparison with `""`.
-/

/-- Message roles distinguished by the client code. -/
inductive Role where
  | user
  | assistant
  | system
  | data
deriving DecidableEq, Repr, Inhabited

/-- A UI message part.  The code only ever inspects the `type` tag and,
for text parts, the `text` body; file parts carry the fields built in
`onSubmit`; every other part kind is opaque to the claims. -/
inductive MessagePart where
  | text (text : String)
  | file (url name key mediaType : String)
  | other
deriving DecidableEq, Repr, Inhabited

/-- `p.type === 'text'`. -/
def MessagePart.isText : MessagePart → Bool
  | .text _ => true
  | _ => false

/-- `p.text` — only ever applied after filtering on `isText`, so the
default value for non-text parts is unreachable. -/
def MessagePart.textValue : MessagePart → String
  | .text t => t
  | _ => ""

/-- A client-side message.  Unifies the fields of the `Message` type of
the manual-strategy component (which has both `content` and `parts`)
and the `UIMessage` type of the delegated-strategy component; spreads
(`{ ...m, parts: ... }`) preserve every other field. -/
structure UIMsg where
  id : String
  role : Role
  content : String
  parts : List MessagePart
  createdAt : Option Nat
deriving DecidableEq, Repr, Inhabited

/-- A chat section: one user message plus the assistant messages
following it (the `ChatSection` interface). -/
structure ChatSection where
  id : String
  userMessage : UIMsg
  assistantMessages : List UIMsg
deriving DecidableEq, Repr

/-- Observable effects of the handlers, in execution order:
the optimistic local `setMessages` result, the durable-store
truncation call `deleteTrailingMessages(chatId, pivot)`, the
transport calls `reload()` / `regenerate({ messageId })`, and the
user-visible `toast.error` notifications. -/
inductive Event where
  | localSet (newLog : List UIMsg)
  | truncate (chatId : String) (pivot : Nat)
  | reload
  | regenerate (messageId : String)
  | toast (message : String)
deriving DecidableEq, Repr

/-- Which awaited remote calls succeed during a manual-strategy
handler run. -/
structure RemoteOutcome where
  deleteOk : Bool
  reloadOk : Bool
deriving DecidableEq, Repr

/-- Whether the awaited `regenerate` call succeeds during a
delegated-strategy handler run. -/
structure DelegatedOutcome where
  regenOk : Bool
deriving DecidableEq, Repr

/-! ## Section builder

Faithful translation of the `sections` memo (identical in both
component variants): a single left-to-right pass over the message log
with a `result` accumulator and a `currentSection` register. -/

/-- The loop body of the `sections` memo. -/
def sectionsLoop : List UIMsg → List ChatSection → Option ChatSection → List ChatSection
  | [], result, none => result
  | [], result, some currentSection => result ++ [currentSection]
  | message :: rest, result, currentSection =>
    if message.role = Role.user then
      sectionsLoop rest (result ++ currentSection.toList)
        (some ⟨message.id, message, []⟩)
    else if message.role = Role.assistant then
      match currentSection with
      | some c =>
        sectionsLoop rest result
          (some ⟨c.id, c.userMessage, c.assistantMessages ++ [message]⟩)
      | none => sectionsLoop rest result none
    else
      sectionsLoop rest result currentSection

/-- `buildSections` (the specification's name for the `sections`
memo): run the loop from an empty result and no open section. -/
def buildSections (messages : List UIMsg) : List ChatSection :=
  sectionsLoop messages [] none

/-! ## Manual replay strategy (first Chat component variant) -/

namespace Manual

/-- `handleUpdateAndReloadMessage` of the manual-strategy component:
guard on a missing chat id, locate the pivot message, capture its
timestamp (epoch sentinel `0` when absent), optimistically replace the
suffix from the pivot onward by one fresh user message, then await the
store truncation and the reload, catching failures. -/
def handleUpdateAndReloadMessage (chatId : String) (messages : List UIMsg)
    (editedMessageId newContentText freshId : String) (now : Nat)
    (w : RemoteOutcome) : List UIMsg × List Event :=
  if chatId = "" then
    (messages, [Event.toast "Chat ID is missing."])
  else
    match messages.find? (fun m => m.id = editedMessageId) with
    | none =>
      (messages, [Event.toast "Original message not found to edit locally."])
    | some pivotMessage =>
      let pivotTimestamp := pivotMessage.createdAt.getD 0
      let messageIndex := messages.findIdx? (fun m => m.id = editedMessageId)
      let messagesBeforeEdited :=
        match messageIndex with
        | some i => messages.take i
        | none => messages
      let newUIMessage : UIMsg :=
        { id := freshId, role := Role.user, content := newContentText,
          parts := [MessagePart.text newContentText], createdAt := some now }
      let newMessages := messagesBeforeEdited ++ [newUIMessage]
      if w.deleteOk then
        if w.reloadOk then
          (newMessages,
            [Event.localSet newMessages,
             Event.truncate chatId pivotTimestamp,
             Event.reload])
        else
          (newMessages,
            [Event.localSet newMessages,
             Event.truncate chatId pivotTimestamp,
             Event.reload,
             Event.toast "Error processing edited message."])
      else
        (newMessages,
          [Event.localSet newMessages,
           Event.truncate chatId pivotTimestamp,
           Event.toast "Error processing edited message."])

/-- `handleReloadFrom` of the manual-strategy component: find the
follower's index (failing when it is `-1` or `0`), require the
preceding message to be a user message, re-derive the text to resend
from its parts (`join('')`, falling back to `content`, then to `""`),
truncate locally before the target, and await the store truncation at
the follower's timestamp and the reload. -/
def handleReloadFrom (chatId : String) (messages : List UIMsg)
    (reloadFromFollowerMessageId freshId : String) (now : Nat)
    (w : RemoteOutcome) : List UIMsg × List Event :=
  if chatId = "" then
    (messages, [Event.toast "Chat ID is missing for reload."])
  else
    match messages.findIdx? (fun m => m.id = reloadFromFollowerMessageId) with
    | none =>
      (messages,
        [Event.toast "Cannot reload: No preceding message found or message is the first."])
    | some followerMessageIndex =>
      if followerMessageIndex < 1 then
        (messages,
          [Event.toast "Cannot reload: No preceding message found or message is the first."])
      else
        let targetUserMessageIndex := followerMessageIndex - 1
        -- in range because `findIdx?` returned an index ≥ 1
        let targetUserMessage := messages.getD targetUserMessageIndex default
        if targetUserMessage.role ≠ Role.user then
          (messages,
            [Event.toast "Cannot reload: The message to resend must be a user message."])
        else
          let followerMessage := messages.getD followerMessageIndex default
          let deletionTimestamp := followerMessage.createdAt.getD 0
          -- `parts?.filter(text).map(text).join('') || content || ''`:
          -- the joined text when non-empty, else `content` (JS `||` on
          -- strings; `content || ''` is `content` itself up to falsiness)
          let joined :=
            String.join ((targetUserMessage.parts.filter
              (fun p => p.isText)).map (fun p => p.textValue))
          let contentToResend :=
            if joined = "" then targetUserMessage.content else joined
          let newResentUserMessage : UIMsg :=
            { id := freshId, role := Role.user, content := contentToResend,
              parts := [MessagePart.text contentToResend],
              createdAt := some now }
          let newMessages :=
            messages.take targetUserMessageIndex ++ [newResentUserMessage]
          if w.deleteOk then
            if w.reloadOk then
              (newMessages,
                [Event.localSet newMessages,
                 Event.truncate chatId deletionTimestamp,
                 Event.reload])
            else
              (newMessages,
                [Event.localSet newMessages,
                 Event.truncate chatId deletionTimestamp,
                 Event.reload,
                 Event.toast "Failed to reload conversation."])
          else
            (newMessages,
              [Event.localSet newMessages,
               Event.truncate chatId deletionTimestamp,
               Event.toast "Failed to reload conversation."])

end Manual

/-! ## Server-delegated strategy (second Chat component variant) -/

namespace Delegated

/-- `handleUpdateAndReloadMessage` of the delegated-strategy
component: after the chat-id guard, mutate the target message in place
(`{ ...target, parts: [text] }`, keeping its id and position; the log
is returned unchanged when the id is absent), then await
`regenerate({ messageId })`, catching failures. -/
def handleUpdateAndReloadMessage (chatId : String) (messages : List UIMsg)
    (editedMessageId newContentText : String)
    (w : DelegatedOutcome) : List UIMsg × List Event :=
  if chatId = "" then
    (messages, [Event.toast "Chat ID is missing."])
  else
    let newMessages :=
      match messages.findIdx? (fun m => m.id = editedMessageId) with
      | none => messages
      | some messageIndex =>
        -- in range because `findIdx?` succeeded
        let target := messages.getD messageIndex default
        messages.set messageIndex
          { target with parts := [MessagePart.text newContentText] }
    if w.regenOk then
      (newMessages, [Event.regenerate editedMessageId])
    else
      (newMessages,
        [Event.regenerate editedMessageId,
         Event.toast "Error processing edited message."])

/-- `handleReloadFrom` of the delegated-strategy component: after the
chat-id guard it performs no structural validation and no local
mutation; it only awaits `regenerate({ messageId })`. -/
def handleReloadFrom (chatId : String) (messages : List UIMsg)
    (reloadFromFollowerMessageId : String)
    (w : DelegatedOutcome) : List UIMsg × List Event :=
  if chatId = "" then
    (messages, [Event.toast "Chat ID is missing for reload."])
  else if w.regenOk then
    (messages, [Event.regenerate reloadFromFollowerMessageId])
  else
    (messages,
      [Event.regenerate reloadFromFollowerMessageId,
       Event.toast "Failed to reload conversation."])

/-- The trigger attached to an outbound transport request. -/
inductive Trigger where
  | submitUserMessage
  | regenerateAssistantMessage
deriving DecidableEq, Repr

/-- The outbound request body built by `prepareSendMessagesRequest`. -/
structure RequestBody where
  trigger : String
  chatId : String
  messageId : Option String
  message : Option UIMsg
deriving DecidableEq, Repr

/-- `prepareSendMessagesRequest` of the `DefaultChatTransport`
configuration: for a regenerate trigger, carry the target message id
and include the target message body only when it is a user message;
for a submit trigger, carry only the last message of the log. -/
def prepareSendMessagesRequest (id : String) (messages : List UIMsg)
    (trigger : Trigger) (messageId : Option String) : RequestBody :=
  match trigger with
  | Trigger.regenerateAssistantMessage =>
    let messageToRegenerate := messages.find? (fun m => some m.id = messageId)
    { trigger := "regenerate-assistant-message",
      chatId := id,
      messageId := messageId,
      message :=
        match messageToRegenerate with
        | some m => if m.role = Role.user then some m else none
        | none => none }
  | Trigger.submitUserMessage =>
    { trigger := "submit-user-message",
      chatId := id,
      messageId := messageId,
      message := messages.getLast? }

end Delegated

/-! ## Message-conversion helpers (`convertMessageForDB` module) -/

/-- One element of an SDK message's array-shaped content:
`{ type: string; text: string }`. -/
structure ContentItem where
  type : String
  text : String
deriving DecidableEq, Repr

/-- The content of an SDK `CoreMessage`:
`string | Array<{type, text}> | null`, plus a fourth case abstracting
any other value by its JSON serialization (the code only ever
`JSON.stringify`s such a value). -/
inductive MsgContent where
  | nullContent
  | strContent (s : String)
  | arrContent (items : List ContentItem)
  | otherContent (json : String)
deriving DecidableEq, Repr

/-- An SDK message as consumed by the conversion helpers. -/
structure SDKMessage where
  role : String
  content : MsgContent
deriving DecidableEq, Repr

/-- A database part produced by `convertMessageForDB`
(`{ text: string }`). -/
structure DBPart where
  text : String
deriving DecidableEq, Repr

/-- The database-compatible message produced by
`convertMessageForDB` (`DatabaseMessageInput`). -/
structure DBMessageInput where
  role : String
  parts : List DBPart
deriving DecidableEq, Repr

/-- One hexadecimal digit, as used by JSON `\u00XX` escapes. -/
def hexDigit (n : Nat) : Char :=
  if n < 10 then Char.ofNat (48 + n) else Char.ofNat (87 + n)

/-- JSON escaping of a single character, as performed by
`JSON.stringify` on string values. -/
def jsonEscapeChar (c : Char) : String :=
  if c = '"' then "\\\""
  else if c = '\\' then "\\\\"
  else if c = '\n' then "\\n"
  else if c = '\r' then "\\r"
  else if c = '\t' then "\\t"
  else if c = '\x08' then "\\b"
  else if c = '\x0c' then "\\f"
  else if c.toNat < 32 then
    "\\u00" ++ String.singleton (hexDigit (c.toNat / 16))
      ++ String.singleton (hexDigit (c.toNat % 16))
  else String.singleton c

/-- JSON serialization of a string value. -/
def jsonQuote (s : String) : String :=
  "\"" ++ String.join (s.data.map jsonEscapeChar) ++ "\""

/-- JSON serialization of one `{type, text}` content item. -/
def jsonStringifyItem (i : ContentItem) : String :=
  "\x7b\"type\":" ++ jsonQuote i.type ++ ",\"text\":" ++ jsonQuote i.text ++ "\x7d"

/-- `JSON.stringify` of an array of `{type, text}` content items. -/
def jsonStringifyItems (items : List ContentItem) : String :=
  "[" ++ String.intercalate "," (items.map jsonStringifyItem) ++ "]"

/-- `convertMessageForDB`: null/undefined content becomes no parts, a
string becomes one text part, an array keeps its text-typed parts when
it has any and is otherwise serialized whole into one text part, and
any other content value is serialized whole into one text part. -/
def convertMessageForDB (message : SDKMessage) : DBMessageInput :=
  let parts : List DBPart :=
    match message.content with
    | MsgContent.nullContent => []
    | MsgContent.strContent s => [⟨s⟩]
    | MsgContent.arrContent items =>
      let textParts :=
        (items.filter (fun part => part.type = "text")).map
          (fun part => (⟨part.text⟩ : DBPart))
      if textParts.length > 0 then textParts
      else [⟨jsonStringifyItems items⟩]
    | MsgContent.otherContent j => [⟨j⟩]
  { role := message.role, parts := parts }

/-- `extractTitleFromMessage`: the guard `if (!message.content)` fires
on null/undefined and on the empty string (JS falsiness); a non-empty
string is truncated to `maxLength`; array content yields the first
text-typed item's text truncated to `maxLength`, else the fallback;
any other content value falls through to the fallback. -/
def extractTitleFromMessage (message : SDKMessage) (maxLength : Nat) : String :=
  match message.content with
  | MsgContent.nullContent => "New Chat"
  | MsgContent.strContent s =>
    if s = "" then "New Chat" else s.take maxLength
  | MsgContent.arrContent items =>
    match items.find? (fun part => part.type = "text") with
    | some textPart => textPart.text.take maxLength
    | none => "New Chat"
  | MsgContent.otherContent _ => "New Chat"

/-- `getTextFromParts`:
`parts?.filter(p => p.type === 'text').map(p => p.text).join(' ') ?? ''`. -/
def getTextFromParts (parts : Option (List MessagePart)) : String :=
  match parts with
  | none => ""
  | some ps =>
    String.intercalate " "
      ((ps.filter (fun part => part.isText)).map (fun part => part.textValue))

/-- The bodies of the text-typed parts of a parts list, in order.
This is the specification's description of what `textOf` concatenates;
it is compared with `getTextFromParts` in the claim about it. -/
def textBodies : List MessagePart → List String
  | [] => []
  | MessagePart.text t :: rest => t :: textBodies rest
  | _ :: rest => textBodies rest

/-! ## Persisted `parts` record and its check constraints
(database schema).  Only the columns that participate in the check
constraints are modelled; the remaining columns (source parts, the
per-tool JSON payloads, data parts, metadata, ids and timestamps) are
unconstrained and irrelevant to the constraint claims. -/

/-- A row of the `parts` table, restricted to the columns named by the
check constraints; nullable columns are `Option`s. -/
structure PartRecord where
  type : String
  text_text : Option String
  reasoning_text : Option String
  file_mediaType : Option String
  file_filename : Option String
  file_url : Option String
  tool_toolCallId : Option String
  tool_state : Option String
deriving DecidableEq, Repr

/-- Check `text_text_required`:
`type != 'text' OR text_text IS NOT NULL`. -/
def textTextRequired (p : PartRecord) : Bool :=
  p.type ≠ "text" || p.text_text.isSome

/-- Check `reasoning_text_required`:
`type != 'reasoning' OR reasoning_text IS NOT NULL`. -/
def reasoningTextRequired (p : PartRecord) : Bool :=
  p.type ≠ "reasoning" || p.reasoning_text.isSome

/-- Check `file_fields_required`: `type != 'file' OR (file_media_type
IS NOT NULL AND file_filename IS NOT NULL AND file_url IS NOT NULL)`. -/
def fileFieldsRequired (p : PartRecord) : Bool :=
  p.type ≠ "file" ||
    (p.file_mediaType.isSome && p.file_filename.isSome && p.file_url.isSome)

/-- Check `tool_state_valid`: `tool_state IS NULL OR tool_state IN
('input-streaming', 'input-available', 'output-available',
'output-error')`. -/
def toolStateValid (p : PartRecord) : Bool :=
  p.tool_state.isNone ||
    (p.tool_state = some "input-streaming" ||
     p.tool_state = some "input-available" ||
     p.tool_state = some "output-available" ||
     p.tool_state = some "output-error")

/-- `type LIKE 'tool-%'`: the type tag starts with `tool-`
(character-list prefix test, so that it evaluates by computation). -/
def isToolType (s : String) : Bool :=
  "tool-".data.isPrefixOf s.data

/-- Check `tool_fields_required`: `type NOT LIKE 'tool-%' OR
(tool_tool_call_id IS NOT NULL AND tool_state IS NOT NULL)`. -/
def toolFieldsRequired (p : PartRecord) : Bool :=
  !(isToolType p.type) ||
    (p.tool_toolCallId.isSome && p.tool_state.isSome)

/-- A `parts` row is accepted exactly when every check constraint of
the table holds. -/
def partRecordValid (p : PartRecord) : Bool :=
  textTextRequired p && reasoningTextRequired p && fileFieldsRequired p &&
    toolStateValid p && toolFieldsRequired p

/-- Whether an event is a durable-store truncation call. -/
def Event.isTruncate : Event → Bool
  | Event.truncate _ _ => true
  | _ => false

/-- The section loop from an empty result accumulator. -/
def sectionsGo (messages : List UIMsg) (cur : Option ChatSection) :
    List ChatSection :=
  sectionsLoop messages [] cur

/-- The assistant messages of a log up to (not including) the next
user message. -/
def assistantsUntilUser (messages : List UIMsg) : List UIMsg :=
  (messages.takeWhile (fun m => !(m.role = Role.user))).filter
    (fun m => m.role = Role.assistant)

/-! ## Helper lemmas -/

/-- Taking at most `n` characters yields a string of length at most
`n`. -/
theorem string_take_length_le (s : String) (n : Nat) : (s.take n).length ≤ n := by
  rw [String.take_eq]
  show (List.take n s.data).length ≤ n
  simp [List.length_take]

/-- Filtering a parts list to its text parts and projecting their
bodies yields exactly the ordered list of text bodies. -/
theorem textBodies_eq_filter_map (ps : List MessagePart) :
    (ps.filter (fun part => part.isText)).map (fun part => part.textValue)
      = textBodies ps := by
  induction ps with
  | nil => rfl
  | cons p rest ih =>
    cases p with
    | text t => exact congrArg (fun l => t :: l) ih
    | file u n k m => exact ih
    | other => exact ih

/-- C5: `getTextFromParts` is total (it is a Lean function, so it never
throws) and returns the bodies of all text-typed parts in their
original order joined with a single separator; it returns the empty
string when the parts argument is absent, when the list is empty, and
when the list contains no text-typed part. -/
theorem C5_getTextFromParts_total_and_ordered :
    getTextFromParts none = "" ∧
    getTextFromParts (some []) = "" ∧
    (∀ ps : List MessagePart, (∀ p ∈ ps, p.isText = false) →
      getTextFromParts (some ps) = "") ∧
    (∀ ps : List MessagePart,
      getTextFromParts (some ps) = String.intercalate " " (textBodies ps)) := by
  refine ⟨rfl, rfl, ?_, ?_⟩
  · intro ps h
    have hfil : ps.filter (fun part => part.isText) = [] := by
      rw [List.filter_eq_nil_iff]
      intro a ha
      simp [h a ha]
    simp only [getTextFromParts, hfil, List.map_nil]
    rfl
  · intro ps
    simp [getTextFromParts, textBodies_eq_filter_map]

/-- Witness for C5: the hypotheses of the claim-C5 theorem hold at a
concrete no-text parts list. -/
theorem C5_witness :
    getTextFromParts (some [MessagePart.other, MessagePart.file "u" "n" "k" "m"]) = "" :=
  C5_getTextFromParts_total_and_ordered.2.2.1
    [MessagePart.other, MessagePart.file "u" "n" "k" "m"] (by decide)

/-- C8: a `parts` row passing the table's check constraints satisfies
the per-type mandatory-field groups — a `text` row has a text body, a
`reasoning` row has a reasoning body, a `file` row has media type,
filename and url together, and a `tool-%` row has a call id and a
state drawn from exactly the four tool states; rows violating a group
are rejected, and each of the four states is accepted. -/
theorem C8_partRecord_invariant (p : PartRecord) :
    (partRecordValid p = true →
      (p.type = "text" → p.text_text ≠ none) ∧
      (p.type = "reasoning" → p.reasoning_text ≠ none) ∧
      (p.type = "file" →
        p.file_mediaType ≠ none ∧ p.file_filename ≠ none ∧ p.file_url ≠ none) ∧
      (isToolType p.type = true →
        p.tool_toolCallId ≠ none ∧
        (p.tool_state = some "input-streaming" ∨
         p.tool_state = some "input-available" ∨
         p.tool_state = some "output-available" ∨
         p.tool_state = some "output-error"))) ∧
    (p.type = "text" → p.text_text = none → partRecordValid p = false) ∧
    (p.type = "file" → p.file_url = none → partRecordValid p = false) ∧
    (isToolType p.type = true → p.tool_state = none → partRecordValid p = false) ∧
    partRecordValid
      ⟨"tool-search", none, none, none, none, none, some "c", some "input-streaming"⟩ = true ∧
    partRecordValid
      ⟨"tool-search", none, none, none, none, none, some "c", some "input-available"⟩ = true ∧
    partRecordValid
      ⟨"tool-search", none, none, none, none, none, some "c", some "output-available"⟩ = true ∧
    partRecordValid
      ⟨"tool-search", none, none, none, none, none, some "c", some "output-error"⟩ = true := by
  refine ⟨?_, ?_, ?_, ?_, by decide, by decide, by decide, by decide⟩
  · intro hv
    simp only [partRecordValid, Bool.and_eq_true] at hv
    obtain ⟨⟨⟨⟨h1, h2⟩, h3⟩, h4⟩, h5⟩ := hv
    refine ⟨?_, ?_, ?_, ?_⟩
    · intro ht
      simp [textTextRequired, ht] at h1
      exact Option.isSome_iff_ne_none.mp h1
    · intro ht
      simp [reasoningTextRequired, ht] at h2
      exact Option.isSome_iff_ne_none.mp h2
    · intro ht
      simp [fileFieldsRequired, ht] at h3
      exact ⟨Option.isSome_iff_ne_none.mp h3.1.1,
        Option.isSome_iff_ne_none.mp h3.1.2,
        Option.isSome_iff_ne_none.mp h3.2⟩
    · intro htool
      simp [toolFieldsRequired, htool] at h5
      obtain ⟨hc, hs⟩ := h5
      refine ⟨Option.isSome_iff_ne_none.mp hc, ?_⟩
      simp [toolStateValid] at h4
      rcases h4 with h4 | h4
      · rw [h4] at hs; simp at hs
      · tauto
  · intro ht hn
    simp [partRecordValid, textTextRequired, ht, hn]
  · intro ht hn
    simp [partRecordValid, fileFieldsRequired, ht, hn]
  · intro ht hn
    simp [partRecordValid, toolFieldsRequired, ht, hn]

/-- Witness for C8: the claim-C8 theorem instantiated at a concrete
accepted text row, with its hypotheses discharged by evaluation. -/
theorem C8_witness :
    (⟨"text", some "hi", none, none, none, none, none, none⟩ : PartRecord).text_text
      ≠ none :=
  ((C8_partRecord_invariant
      ⟨"text", some "hi", none, none, none, none, none, none⟩).1
    (by decide)).1 rfl

/-- C9: `convertMessageForDB` is total and role-preserving, and its
parts are: empty for null/undefined content, one text part for string
content, the text parts of an array that has at least one, one
JSON-serialized text part for an array with none, and one
JSON-serialized text part for any other content value. -/
theorem C9_convertMessageForDB_cases (message : SDKMessage) :
    (convertMessageForDB message).role = message.role ∧
    (message.content = MsgContent.nullContent →
      (convertMessageForDB message).parts = []) ∧
    (∀ s, message.content = MsgContent.strContent s →
      (convertMessageForDB message).parts = [⟨s⟩]) ∧
    (∀ items, message.content = MsgContent.arrContent items →
      items.filter (fun part => part.type = "text") ≠ [] →
      (convertMessageForDB message).parts =
        (items.filter (fun part => part.type = "text")).map
          (fun part => (⟨part.text⟩ : DBPart))) ∧
    (∀ items, message.content = MsgContent.arrContent items →
      items.filter (fun part => part.type = "text") = [] →
      (convertMessageForDB message).parts = [⟨jsonStringifyItems items⟩]) ∧
    (∀ j, message.content = MsgContent.otherContent j →
      (convertMessageForDB message).parts = [⟨j⟩]) := by
  refine ⟨rfl, ?_, ?_, ?_, ?_, ?_⟩
  · intro h; simp [convertMessageForDB, h]
  · intro s h; simp [convertMessageForDB, h]
  · intro items h hne
    have hlen : 0 < (items.filter (fun part => part.type = "text")).length :=
      List.length_pos.mpr hne
    simp [convertMessageForDB, h, hlen]
  · intro items h hfil
    simp [convertMessageForDB, h, hfil]
  · intro j h; simp [convertMessageForDB, h]

/-- Witness for C9: the claim-C9 theorem instantiated at a concrete
array-content message with one text item. -/
theorem C9_witness :
    (convertMessageForDB ⟨"assistant",
        MsgContent.arrContent [⟨"text", "hi"⟩, ⟨"tool-call", "x"⟩]⟩).parts
      = [⟨"hi"⟩] :=
  (C9_convertMessageForDB_cases ⟨"assistant",
      MsgContent.arrContent [⟨"text", "hi"⟩, ⟨"tool-call", "x"⟩]⟩).2.2.2.1
    [⟨"text", "hi"⟩, ⟨"tool-call", "x"⟩] rfl (by decide)

/-- Counterexample for C10: on string content `""` with `maxLength`
`5`, `extractTitleFromMessage` returns the fallback `"New Chat"` — not
the first `maxLength` characters of the string content — and its
result has length `8 > maxLength`. -/
theorem C10_counterexample :
    extractTitleFromMessage ⟨"user", MsgContent.strContent ""⟩ 5 = "New Chat" ∧
    ¬ (extractTitleFromMessage ⟨"user", MsgContent.strContent ""⟩ 5).length ≤ 5 := by
  decide

/-- C10 (amended): `extractTitleFromMessage` returns the first
`maxLength` characters of the content when the content is a non-empty
string, the first `maxLength` characters of the first text-typed part
when the content is an array containing one, and the literal fallback
`"New Chat"` when the content is absent, is the empty string, is an
array with no text-typed part, or is any other value; consequently its
result length is at most `max maxLength 8`. -/
theorem C10_extractTitle_amended (message : SDKMessage) (maxLength : Nat) :
    (extractTitleFromMessage message maxLength).length ≤ max maxLength 8 ∧
    (message.content = MsgContent.nullContent →
      extractTitleFromMessage message maxLength = "New Chat") ∧
    (∀ s, message.content = MsgContent.strContent s → s ≠ "" →
      extractTitleFromMessage message maxLength = s.take maxLength) ∧
    (message.content = MsgContent.strContent "" →
      extractTitleFromMessage message maxLength = "New Chat") ∧
    (∀ items textPart, message.content = MsgContent.arrContent items →
      items.find? (fun part => part.type = "text") = some textPart →
      extractTitleFromMessage message maxLength = textPart.text.take maxLength) ∧
    (∀ items, message.content = MsgContent.arrContent items →
      items.find? (fun part => part.type = "text") = none →
      extractTitleFromMessage message maxLength = "New Chat") ∧
    (∀ j, message.content = MsgContent.otherContent j →
      extractTitleFromMessage message maxLength = "New Chat") := by
  have hnc : ("New Chat" : String).length ≤ max maxLength 8 :=
    le_trans (by decide) (Nat.le_max_right _ _)
  have htk : ∀ s : String, (s.take maxLength).length ≤ max maxLength 8 :=
    fun s => le_trans (string_take_length_le s maxLength) (Nat.le_max_left _ _)
  refine ⟨?_, ?_, ?_, ?_, ?_, ?_, ?_⟩
  · cases hc : message.content with
    | nullContent => simp [extractTitleFromMessage, hc, hnc]
    | strContent s =>
      by_cases hs : s = "" <;> simp [extractTitleFromMessage, hc, hs, hnc, htk]
    | arrContent items =>
      cases hf : items.find? (fun part => part.type = "text") with
      | none => simp [extractTitleFromMessage, hc, hf, hnc]
      | some tp => simp [extractTitleFromMessage, hc, hf, htk]
    | otherContent j => simp [extractTitleFromMessage, hc, hnc]
  · intro h; simp [extractTitleFromMessage, h]
  · intro s h hs; simp [extractTitleFromMessage, h, hs]
  · intro h; simp [extractTitleFromMessage, h]
  · intro items tp h hf; simp [extractTitleFromMessage, h, hf]
  · intro items h hf; simp [extractTitleFromMessage, h, hf]
  · intro j h; simp [extractTitleFromMessage, h]

/-- Witness for C10: the amended theorem instantiated at a concrete
non-empty string content. -/
theorem C10_witness :
    extractTitleFromMessage ⟨"user", MsgContent.strContent "hello world"⟩ 5
      = ("hello world" : String).take 5 :=
  (C10_extractTitle_amended ⟨"user", MsgContent.strContent "hello world"⟩ 5).2.2.1
    "hello world" rfl (by decide)

/-- C6: under the server-delegated strategy, edit-and-regenerate
mutates the target message in place — the log keeps its length, every
other position is unchanged, and the target position holds the
original message with only its `parts` field replaced by a single text
part carrying the new text (so its id, role and every other field are
preserved, at the original position). -/
theorem C6_delegated_edit_in_place (chatId : String) (messages : List UIMsg)
    (editedMessageId newContentText : String) (w : DelegatedOutcome) (i : Nat)
    (hchat : chatId ≠ "")
    (hfound : messages.findIdx? (fun m => m.id = editedMessageId) = some i) :
    (Delegated.handleUpdateAndReloadMessage chatId messages editedMessageId
        newContentText w).1.length = messages.length ∧
    (∀ k, k ≠ i →
      (Delegated.handleUpdateAndReloadMessage chatId messages editedMessageId
          newContentText w).1[k]? = messages[k]?) ∧
    (∃ target, messages[i]? = some target ∧ target.id = editedMessageId ∧
      (Delegated.handleUpdateAndReloadMessage chatId messages editedMessageId
          newContentText w).1[i]?
        = some { target with parts := [MessagePart.text newContentText] }) := by
  obtain ⟨hlt, hp, -⟩ := List.findIdx?_eq_some_iff_getElem.mp hfound
  have hget : messages[i]? = some messages[i] := List.getElem?_eq_getElem hlt
  have hgetD : messages.getD i default = messages[i] := by
    rw [List.getD_eq_getElem?_getD, hget]; rfl
  have hfst : (Delegated.handleUpdateAndReloadMessage chatId messages
      editedMessageId newContentText w).1
      = messages.set i
          { messages[i] with parts := [MessagePart.text newContentText] } := by
    rcases w with ⟨_ | _⟩ <;>
      simp [Delegated.handleUpdateAndReloadMessage, hchat, hfound,
        List.getD_eq_getElem?_getD, hget]
  refine ⟨?_, ?_, ?_⟩
  · rw [hfst]; exact List.length_set messages i _
  · intro k hk
    rw [hfst]
    exact List.getElem?_set_ne (fun h => hk h.symm)
  · refine ⟨messages[i], hget, by simpa using hp, ?_⟩
    rw [hfst]
    exact List.getElem?_set_self (by simpa using hlt)

/-- Witness for C6: the claim-C6 theorem instantiated at a concrete
two-message log, editing the first message. -/
theorem C6_witness :
    (Delegated.handleUpdateAndReloadMessage "chat"
        [⟨"m1", Role.user, "old", [MessagePart.text "old"], some 1⟩,
         ⟨"m2", Role.assistant, "a", [MessagePart.text "a"], some 2⟩]
        "m1" "new" ⟨true⟩).1.length = 2 :=
  (C6_delegated_edit_in_place "chat"
      [⟨"m1", Role.user, "old", [MessagePart.text "old"], some 1⟩,
       ⟨"m2", Role.assistant, "a", [MessagePart.text "a"], some 2⟩]
      "m1" "new" ⟨true⟩ 0 (by decide) (by decide)).1

/-- C7: the outbound request body is determined by the trigger — a
submit-user-message request carries the trigger tag, the chat id and
only the last message of the log, while a regenerate-assistant-message
request carries the target message id and includes the target message
body exactly when a message with that id exists in the log and has
role user (the log's ids being distinct). -/
theorem C7_prepareSendMessagesRequest (id : String) (messages : List UIMsg)
    (mid : Option String) (targetId : String)
    (hnodup : (messages.map (fun m => m.id)).Nodup) :
    ((Delegated.prepareSendMessagesRequest id messages
        Delegated.Trigger.submitUserMessage mid).trigger = "submit-user-message" ∧
     (Delegated.prepareSendMessagesRequest id messages
        Delegated.Trigger.submitUserMessage mid).chatId = id ∧
     (Delegated.prepareSendMessagesRequest id messages
        Delegated.Trigger.submitUserMessage mid).messageId = mid ∧
     (Delegated.prepareSendMessagesRequest id messages
        Delegated.Trigger.submitUserMessage mid).message = messages.getLast?) ∧
    ((Delegated.prepareSendMessagesRequest id messages
        Delegated.Trigger.regenerateAssistantMessage (some targetId)).trigger
        = "regenerate-assistant-message" ∧
     (Delegated.prepareSendMessagesRequest id messages
        Delegated.Trigger.regenerateAssistantMessage (some targetId)).chatId = id ∧
     (Delegated.prepareSendMessagesRequest id messages
        Delegated.Trigger.regenerateAssistantMessage (some targetId)).messageId
        = some targetId ∧
     (∀ m, (Delegated.prepareSendMessagesRequest id messages
        Delegated.Trigger.regenerateAssistantMessage (some targetId)).message = some m →
        m ∈ messages ∧ m.id = targetId ∧ m.role = Role.user) ∧
     ((∃ m ∈ messages, m.id = targetId ∧ m.role = Role.user) →
        ∀ m ∈ messages, m.id = targetId →
          (Delegated.prepareSendMessagesRequest id messages
            Delegated.Trigger.regenerateAssistantMessage (some targetId)).message
            = some m)) := by
  refine ⟨⟨rfl, rfl, rfl, rfl⟩, rfl, rfl, rfl, ?_, ?_⟩
  · intro m hm
    simp only [Delegated.prepareSendMessagesRequest, Option.some.injEq] at hm
    cases hfind : messages.find? (fun x => x.id = targetId) with
    | none => rw [hfind] at hm; simp at hm
    | some m0 =>
      rw [hfind] at hm
      simp at hm
      obtain ⟨hrole, heq⟩ := hm
      have hmem := List.mem_of_find?_eq_some hfind
      have hpid := List.find?_some hfind
      simp at hpid
      subst heq
      exact ⟨hmem, hpid, hrole⟩
  · rintro ⟨m1, hm1, hid1, hrole1⟩ m hm hid
    have hsome : (messages.find? (fun x => some x.id = some targetId)).isSome := by
      rw [List.find?_isSome]
      exact ⟨m1, hm1, by simp [hid1]⟩
    cases hfind : messages.find? (fun x => some x.id = some targetId) with
    | none => rw [hfind] at hsome; simp at hsome
    | some m0 =>
      have hmem0 := List.mem_of_find?_eq_some hfind
      have hpid0 := List.find?_some hfind
      simp at hpid0
      have hm0eq : m0 = m :=
        List.inj_on_of_nodup_map hnodup hmem0 hm (by rw [hpid0, hid])
      have hm0m1 : m0 = m1 :=
        List.inj_on_of_nodup_map hnodup hmem0 hm1 (by rw [hpid0, hid1])
      simp only [Delegated.prepareSendMessagesRequest, hfind]
      rw [if_pos (by rw [hm0m1]; exact hrole1), hm0eq]

/-- Witness for C7: the claim-C7 theorem instantiated at a concrete
two-message log with distinct ids. -/
theorem C7_witness :
    (Delegated.prepareSendMessagesRequest "chat"
        [⟨"m1", Role.user, "q", [MessagePart.text "q"], some 1⟩,
         ⟨"m2", Role.assistant, "a", [MessagePart.text "a"], some 2⟩]
        Delegated.Trigger.submitUserMessage (some "m2")).message
      = [⟨"m1", Role.user, "q", [MessagePart.text "q"], some 1⟩,
         ⟨"m2", Role.assistant, "a", [MessagePart.text "a"], some 2⟩].getLast? :=
  ((C7_prepareSendMessagesRequest "chat"
      [⟨"m1", Role.user, "q", [MessagePart.text "q"], some 1⟩,
       ⟨"m2", Role.assistant, "a", [MessagePart.text "a"], some 2⟩]
      (some "m2") "m1" (by decide)).1).2.2.2


/-- C1: under the manual replay strategy, edit-and-regenerate on `U2`
in a log `[U1, A1, U2, A2]` with new text `X` produces the local log
`[U1, A1, U2']` where `U2'` is a user message whose parts are exactly
one text part `X` under a freshly generated id, and (in every remote
outcome) issues exactly one durable-store truncation call whose pivot
equals `U2.createdAt`, falling back to the epoch sentinel `0` when
`U2.createdAt` is absent. -/
theorem C1_manual_edit_four_message_log
    (chatId : String) (U1 A1 U2 A2 : UIMsg) (newText freshId : String)
    (now : Nat) (w : RemoteOutcome)
    (hchat : chatId ≠ "")
    (h1 : U1.role = Role.user) (h2 : A1.role = Role.assistant)
    (h3 : U2.role = Role.user) (h4 : A2.role = Role.assistant)
    (d1 : U1.id ≠ U2.id) (d2 : A1.id ≠ U2.id) :
    (Manual.handleUpdateAndReloadMessage chatId [U1, A1, U2, A2] U2.id
        newText freshId now w).1
      = [U1, A1,
         { id := freshId, role := Role.user, content := newText,
           parts := [MessagePart.text newText], createdAt := some now }] ∧
    (Manual.handleUpdateAndReloadMessage chatId [U1, A1, U2, A2] U2.id
        newText freshId now w).2.filter (fun e => e.isTruncate)
      = [Event.truncate chatId (U2.createdAt.getD 0)] := by
  rcases w with ⟨dOk, rOk⟩
  cases dOk <;> cases rOk <;>
    simp [Manual.handleUpdateAndReloadMessage, hchat, List.find?_cons,
      List.findIdx?_cons, d1, d2, List.filter_cons, Event.isTruncate]

/-- Witness for C1: the claim-C1 theorem instantiated at a concrete
four-message log with a missing `createdAt` on the edited message, so
the pivot falls back to the epoch sentinel. -/
theorem C1_witness :
    (Manual.handleUpdateAndReloadMessage "chat"
        [⟨"u1", Role.user, "q1", [MessagePart.text "q1"], some 1⟩,
         ⟨"a1", Role.assistant, "r1", [MessagePart.text "r1"], some 2⟩,
         ⟨"u2", Role.user, "q2", [MessagePart.text "q2"], none⟩,
         ⟨"a2", Role.assistant, "r2", [MessagePart.text "r2"], some 4⟩]
        "u2" "X" "fresh" 9 ⟨true, true⟩).2.filter (fun e => e.isTruncate)
      = [Event.truncate "chat" 0] :=
  (C1_manual_edit_four_message_log "chat"
      ⟨"u1", Role.user, "q1", [MessagePart.text "q1"], some 1⟩
      ⟨"a1", Role.assistant, "r1", [MessagePart.text "r1"], some 2⟩
      ⟨"u2", Role.user, "q2", [MessagePart.text "q2"], none⟩
      ⟨"a2", Role.assistant, "r2", [MessagePart.text "r2"], some 4⟩
      "X" "fresh" 9 ⟨true, true⟩ (by decide) rfl rfl rfl rfl
      (by decide) (by decide)).2

/-- C2: under the manual replay strategy, whenever an
edit-and-regenerate invocation passes its structural checks, its
effects are strictly ordered — the optimistic local edit is applied
first, then the durable-store truncation call is issued, and the
reload transport request is issued exactly when the truncation call
resolved successfully; a failure of either remote step adds an error
notification at the end of the trace, and the final local log is the
edited log in every outcome (no rollback). -/
theorem C2_manual_edit_effect_ordering
    (chatId : String) (messages : List UIMsg)
    (editedMessageId newText freshId : String) (now : Nat)
    (w : RemoteOutcome) (pivotMessage : UIMsg)
    (hchat : chatId ≠ "")
    (hfind : messages.find? (fun m => m.id = editedMessageId)
      = some pivotMessage) :
    ∃ newLog,
      (Manual.handleUpdateAndReloadMessage chatId messages editedMessageId
          newText freshId now w).1 = newLog ∧
      (∃ pre, newLog = pre ++
        [{ id := freshId, role := Role.user, content := newText,
           parts := [MessagePart.text newText], createdAt := some now }]) ∧
      (Manual.handleUpdateAndReloadMessage chatId messages editedMessageId
          newText freshId now w).2
        = Event.localSet newLog ::
          Event.truncate chatId (pivotMessage.createdAt.getD 0) ::
          (if w.deleteOk then
            Event.reload ::
              (if w.reloadOk then []
               else [Event.toast "Error processing edited message."])
           else [Event.toast "Error processing edited message."]) := by
  rcases w with ⟨dOk, rOk⟩
  refine ⟨(Manual.handleUpdateAndReloadMessage chatId messages editedMessageId
      newText freshId now ⟨dOk, rOk⟩).1, rfl, ?_, ?_⟩ <;>
    cases hidx : messages.findIdx? (fun m => m.id = editedMessageId) <;>
      cases dOk <;> cases rOk <;>
        simp [Manual.handleUpdateAndReloadMessage, hchat, hfind, hidx]

/-- Witness for C2: the claim-C2 theorem instantiated at a concrete
log in the outcome where the truncation call fails. -/
theorem C2_witness :
    ∃ newLog,
      (Manual.handleUpdateAndReloadMessage "chat"
          [⟨"u1", Role.user, "q1", [MessagePart.text "q1"], some 1⟩]
          "u1" "X" "fresh" 9 ⟨false, true⟩).1 = newLog ∧
      (∃ pre, newLog = pre ++
        [{ id := "fresh", role := Role.user, content := "X",
           parts := [MessagePart.text "X"], createdAt := some 9 }]) ∧
      (Manual.handleUpdateAndReloadMessage "chat"
          [⟨"u1", Role.user, "q1", [MessagePart.text "q1"], some 1⟩]
          "u1" "X" "fresh" 9 ⟨false, true⟩).2
        = Event.localSet newLog ::
          Event.truncate "chat" 1 ::
          [Event.toast "Error processing edited message."] :=
  C2_manual_edit_effect_ordering "chat"
    [⟨"u1", Role.user, "q1", [MessagePart.text "q1"], some 1⟩]
    "u1" "X" "fresh" 9 ⟨false, true⟩
    ⟨"u1", Role.user, "q1", [MessagePart.text "q1"], some 1⟩
    (by decide) (by decide)

/-- Counterexample for C3: under the server-delegated strategy,
edit-and-regenerate with a target message id absent from the log does
not terminate with an error notification and does not withhold the
transport request — on the empty log it leaves the log unchanged but
still issues the regenerate transport request, with no notification. -/
theorem C3_counterexample :
    Delegated.handleUpdateAndReloadMessage "chat" [] "m1" "X" ⟨true⟩
      = ([], [Event.regenerate "m1"]) := by
  decide

/-- C3 (amended): under the manual strategy, structural errors abort
before any mutation — edit-and-regenerate with an absent target id,
and reload-from with an absent follower, a first-position follower, or
a non-user preceding message, each terminate with a single error
notification, leave the log unchanged, and issue no truncation or
transport request.  Under the server-delegated strategy no structural
validation is performed: edit-and-regenerate with an absent target id
leaves the local log unchanged but still issues the regenerate
transport request with no error notification, and reload-from always
issues the regenerate transport request without mutating the log. -/
theorem C3_structural_errors_amended :
    (∀ (chatId : String) (messages : List UIMsg)
        (editedMessageId newText freshId : String) (now : Nat)
        (w : RemoteOutcome),
      chatId ≠ "" →
      messages.find? (fun m => m.id = editedMessageId) = none →
      Manual.handleUpdateAndReloadMessage chatId messages editedMessageId
          newText freshId now w
        = (messages,
            [Event.toast "Original message not found to edit locally."])) ∧
    (∀ (chatId : String) (messages : List UIMsg)
        (followerId freshId : String) (now : Nat) (w : RemoteOutcome),
      chatId ≠ "" →
      messages.findIdx? (fun m => m.id = followerId) = none →
      Manual.handleReloadFrom chatId messages followerId freshId now w
        = (messages,
            [Event.toast
              "Cannot reload: No preceding message found or message is the first."])) ∧
    (∀ (chatId : String) (messages : List UIMsg)
        (followerId freshId : String) (now : Nat) (w : RemoteOutcome),
      chatId ≠ "" →
      messages.findIdx? (fun m => m.id = followerId) = some 0 →
      Manual.handleReloadFrom chatId messages followerId freshId now w
        = (messages,
            [Event.toast
              "Cannot reload: No preceding message found or message is the first."])) ∧
    (∀ (chatId : String) (messages : List UIMsg)
        (followerId freshId : String) (now : Nat) (w : RemoteOutcome)
        (i : Nat) (target : UIMsg),
      chatId ≠ "" →
      messages.findIdx? (fun m => m.id = followerId) = some (i + 1) →
      messages[i]? = some target →
      target.role ≠ Role.user →
      Manual.handleReloadFrom chatId messages followerId freshId now w
        = (messages,
            [Event.toast
              "Cannot reload: The message to resend must be a user message."])) ∧
    (∀ (chatId : String) (messages : List UIMsg)
        (editedMessageId newText : String) (w : DelegatedOutcome),
      chatId ≠ "" →
      messages.findIdx? (fun m => m.id = editedMessageId) = none →
      Delegated.handleUpdateAndReloadMessage chatId messages editedMessageId
          newText w
        = (messages,
            Event.regenerate editedMessageId ::
              (if w.regenOk then []
               else [Event.toast "Error processing edited message."]))) ∧
    (∀ (chatId : String) (messages : List UIMsg) (followerId : String)
        (w : DelegatedOutcome),
      chatId ≠ "" →
      Delegated.handleReloadFrom chatId messages followerId w
        = (messages,
            Event.regenerate followerId ::
              (if w.regenOk then []
               else [Event.toast "Failed to reload conversation."]))) := by
  refine ⟨?_, ?_, ?_, ?_, ?_, ?_⟩
  · intro chatId messages editedMessageId newText freshId now w hchat hfind
    simp [Manual.handleUpdateAndReloadMessage, hchat, hfind]
  · intro chatId messages followerId freshId now w hchat hidx
    simp [Manual.handleReloadFrom, hchat, hidx]
  · intro chatId messages followerId freshId now w hchat hidx
    simp [Manual.handleReloadFrom, hchat, hidx]
  · intro chatId messages followerId freshId now w i target hchat hidx htgt hrole
    simp [Manual.handleReloadFrom, hchat, hidx,
      List.getD_eq_getElem?_getD, htgt, hrole]
  · intro chatId messages editedMessageId newText w hchat hidx
    rcases w with ⟨_ | _⟩ <;>
      simp [Delegated.handleUpdateAndReloadMessage, hchat, hidx]
  · intro chatId messages followerId w hchat
    rcases w with ⟨_ | _⟩ <;>
      simp [Delegated.handleReloadFrom, hchat]

/-- Witness for C3: the amended theorem's delegated-reload conjunct
instantiated at a concrete log whose follower is the first message. -/
theorem C3_witness :
    Delegated.handleReloadFrom "chat"
        [⟨"u1", Role.user, "q", [MessagePart.text "q"], some 1⟩]
        "u1" ⟨true⟩
      = ([⟨"u1", Role.user, "q", [MessagePart.text "q"], some 1⟩],
         [Event.regenerate "u1"]) :=
  C3_structural_errors_amended.2.2.2.2.2 "chat"
    [⟨"u1", Role.user, "q", [MessagePart.text "q"], some 1⟩]
    "u1" ⟨true⟩ (by decide)

/-! ## Section-builder lemmas -/

/-- One step of the section loop on a user message: flush the open
section and open a fresh one. -/
theorem sectionsLoop_cons_user {m : UIMsg} (hu : m.role = Role.user)
    (rest : List UIMsg) (result : List ChatSection)
    (cur : Option ChatSection) :
    sectionsLoop (m :: rest) result cur
      = sectionsLoop rest (result ++ cur.toList) (some ⟨m.id, m, []⟩) := by
  simp [sectionsLoop, hu]

/-- One step of the section loop on an assistant message with an open
section: append it to the open section. -/
theorem sectionsLoop_cons_assistant_some {m : UIMsg}
    (hu : ¬ m.role = Role.user) (ha : m.role = Role.assistant)
    (rest : List UIMsg) (result : List ChatSection) (c : ChatSection) :
    sectionsLoop (m :: rest) result (some c)
      = sectionsLoop rest result
          (some ⟨c.id, c.userMessage, c.assistantMessages ++ [m]⟩) := by
  simp [sectionsLoop, hu, ha]

/-- One step of the section loop on an assistant message with no open
section: the message is dropped. -/
theorem sectionsLoop_cons_assistant_none {m : UIMsg}
    (hu : ¬ m.role = Role.user) (ha : m.role = Role.assistant)
    (rest : List UIMsg) (result : List ChatSection) :
    sectionsLoop (m :: rest) result none = sectionsLoop rest result none := by
  simp [sectionsLoop, hu, ha]

/-- One step of the section loop on any other role: the message is
dropped. -/
theorem sectionsLoop_cons_other {m : UIMsg}
    (hu : ¬ m.role = Role.user) (ha : ¬ m.role = Role.assistant)
    (rest : List UIMsg) (result : List ChatSection)
    (cur : Option ChatSection) :
    sectionsLoop (m :: rest) result cur = sectionsLoop rest result cur := by
  simp [sectionsLoop, hu, ha]

/-- The result accumulator factors out of the section loop. -/
theorem sectionsLoop_acc (messages : List UIMsg) :
    ∀ (result : List ChatSection) (cur : Option ChatSection),
      sectionsLoop messages result cur
        = result ++ sectionsLoop messages [] cur := by
  induction messages with
  | nil =>
    intro result cur
    cases cur <;> simp [sectionsLoop]
  | cons m rest ih =>
    intro result cur
    by_cases hu : m.role = Role.user
    · rw [sectionsLoop_cons_user hu, sectionsLoop_cons_user hu,
        ih (result ++ cur.toList), ih ([] ++ cur.toList)]
      simp
    · by_cases ha : m.role = Role.assistant
      · cases cur with
        | some c =>
          rw [sectionsLoop_cons_assistant_some hu ha,
            sectionsLoop_cons_assistant_some hu ha, ih result, ih []]
        | none =>
          rw [sectionsLoop_cons_assistant_none hu ha,
            sectionsLoop_cons_assistant_none hu ha, ih result, ih []]
      · rw [sectionsLoop_cons_other hu ha, sectionsLoop_cons_other hu ha,
          ih result, ih []]


/-- `buildSections` is the section loop from an empty accumulator and
no open section. -/
theorem buildSections_eq_go (messages : List UIMsg) :
    buildSections messages = sectionsGo messages none := rfl

/-- Step lemma: a user message flushes the open section and opens a
fresh one. -/
theorem sectionsGo_cons_user {m : UIMsg} (hu : m.role = Role.user)
    (rest : List UIMsg) (cur : Option ChatSection) :
    sectionsGo (m :: rest) cur
      = cur.toList ++ sectionsGo rest (some ⟨m.id, m, []⟩) := by
  unfold sectionsGo
  rw [sectionsLoop_cons_user hu, List.nil_append, sectionsLoop_acc]

/-- Step lemma: an assistant message joins the open section. -/
theorem sectionsGo_cons_assistant_some {m : UIMsg}
    (hu : ¬ m.role = Role.user) (ha : m.role = Role.assistant)
    (rest : List UIMsg) (c : ChatSection) :
    sectionsGo (m :: rest) (some c)
      = sectionsGo rest
          (some ⟨c.id, c.userMessage, c.assistantMessages ++ [m]⟩) := by
  unfold sectionsGo
  rw [sectionsLoop_cons_assistant_some hu ha]

/-- Step lemma: an assistant message with no open section is dropped. -/
theorem sectionsGo_cons_assistant_none {m : UIMsg}
    (hu : ¬ m.role = Role.user) (ha : m.role = Role.assistant)
    (rest : List UIMsg) :
    sectionsGo (m :: rest) none = sectionsGo rest none := by
  unfold sectionsGo
  rw [sectionsLoop_cons_assistant_none hu ha]

/-- Step lemma: any other role is dropped. -/
theorem sectionsGo_cons_other {m : UIMsg}
    (hu : ¬ m.role = Role.user) (ha : ¬ m.role = Role.assistant)
    (rest : List UIMsg) (cur : Option ChatSection) :
    sectionsGo (m :: rest) cur = sectionsGo rest cur := by
  unfold sectionsGo
  rw [sectionsLoop_cons_other hu ha]

/-- With an open section, the user messages of the output are the open
section's user message followed by the input's user messages. -/
theorem sectionsGo_some_map_user (messages : List UIMsg) :
    ∀ c : ChatSection,
      (sectionsGo messages (some c)).map (fun s => s.userMessage)
        = c.userMessage :: messages.filter (fun m => m.role = Role.user) := by
  induction messages with
  | nil => intro c; simp [sectionsGo, sectionsLoop]
  | cons m rest ih =>
    intro c
    by_cases hu : m.role = Role.user
    · rw [sectionsGo_cons_user hu]
      simp [ih, List.filter_cons, hu]
    · by_cases ha : m.role = Role.assistant
      · rw [sectionsGo_cons_assistant_some hu ha]
        simp [ih, List.filter_cons, hu]
      · rw [sectionsGo_cons_other hu ha]
        simp [ih, List.filter_cons, hu]

/-- With no open section, the user messages of the output are exactly
the input's user messages. -/
theorem sectionsGo_none_map_user (messages : List UIMsg) :
    (sectionsGo messages none).map (fun s => s.userMessage)
      = messages.filter (fun m => m.role = Role.user) := by
  induction messages with
  | nil => rfl
  | cons m rest ih =>
    by_cases hu : m.role = Role.user
    · rw [sectionsGo_cons_user hu]
      simp [sectionsGo_some_map_user, List.filter_cons, hu]
    · by_cases ha : m.role = Role.assistant
      · rw [sectionsGo_cons_assistant_none hu ha]
        simp [ih, List.filter_cons, hu]
      · rw [sectionsGo_cons_other hu ha]
        simp [ih, List.filter_cons, hu]

/-- With an open section, the concatenated assistant lists of the
output are the open section's assistants followed by the input's
assistant messages. -/
theorem sectionsGo_some_flat (messages : List UIMsg) :
    ∀ c : ChatSection,
      (sectionsGo messages (some c)).flatMap (fun s => s.assistantMessages)
        = c.assistantMessages
            ++ messages.filter (fun m => m.role = Role.assistant) := by
  induction messages with
  | nil => intro c; simp [sectionsGo, sectionsLoop]
  | cons m rest ih =>
    intro c
    by_cases hu : m.role = Role.user
    · rw [sectionsGo_cons_user hu]
      have : ¬ m.role = Role.assistant := by simp [hu]
      simp [ih, List.filter_cons, this]
    · by_cases ha : m.role = Role.assistant
      · rw [sectionsGo_cons_assistant_some hu ha]
        simp [ih, List.filter_cons, ha]
      · rw [sectionsGo_cons_other hu ha]
        simp [ih, List.filter_cons, ha]

/-- With no open section, the concatenated assistant lists of the
output are the assistant messages at or after the first user
message. -/
theorem sectionsGo_none_flat (messages : List UIMsg) :
    (sectionsGo messages none).flatMap (fun s => s.assistantMessages)
      = (messages.dropWhile (fun m => !(m.role = Role.user))).filter
          (fun m => m.role = Role.assistant) := by
  induction messages with
  | nil => rfl
  | cons m rest ih =>
    by_cases hu : m.role = Role.user
    · rw [sectionsGo_cons_user hu]
      have hna : ¬ m.role = Role.assistant := by simp [hu]
      simp [sectionsGo_some_flat, List.dropWhile_cons, List.filter_cons, hu, hna]
    · by_cases ha : m.role = Role.assistant
      · rw [sectionsGo_cons_assistant_none hu ha]
        simp [ih, List.dropWhile_cons, hu]
      · rw [sectionsGo_cons_other hu ha]
        simp [ih, List.dropWhile_cons, hu]

/-- Every section produced by the loop carries its user message's id,
provided the open section does. -/
theorem sectionsGo_id_inv (messages : List UIMsg) :
    ∀ (cur : Option ChatSection),
      (∀ c, cur = some c → c.id = c.userMessage.id) →
      ∀ s ∈ sectionsGo messages cur, s.id = s.userMessage.id := by
  induction messages with
  | nil =>
    intro cur hcur s hs
    cases cur with
    | none => simp [sectionsGo, sectionsLoop] at hs
    | some c =>
      simp [sectionsGo, sectionsLoop] at hs
      subst hs
      exact hcur _ rfl
  | cons m rest ih =>
    intro cur hcur s hs
    by_cases hu : m.role = Role.user
    · rw [sectionsGo_cons_user hu] at hs
      rcases List.mem_append.mp hs with h | h
      · cases cur with
        | none => simp at h
        | some c =>
          simp at h
          subst h
          exact hcur _ rfl
      · refine ih (some ⟨m.id, m, []⟩) ?_ s h
        rintro c hc
        cases hc
        rfl
    · by_cases ha : m.role = Role.assistant
      · cases cur with
        | some c =>
          rw [sectionsGo_cons_assistant_some hu ha] at hs
          refine ih _ ?_ s hs
          rintro c' hc'
          cases hc'
          exact hcur c rfl
        | none =>
          rw [sectionsGo_cons_assistant_none hu ha] at hs
          exact ih none (by simp) s hs
      · rw [sectionsGo_cons_other hu ha] at hs
        exact ih cur hcur s hs


/-- With an open section, the first section of the output is the open
section extended with the assistant messages preceding the next user
message. -/
theorem sectionsGo_some_head (messages : List UIMsg) :
    ∀ c : ChatSection, ∃ tail,
      sectionsGo messages (some c)
        = ⟨c.id, c.userMessage,
            c.assistantMessages ++ assistantsUntilUser messages⟩ :: tail := by
  induction messages with
  | nil =>
    intro c
    refine ⟨[], ?_⟩
    simp [sectionsGo, sectionsLoop, assistantsUntilUser]
  | cons m rest ih =>
    intro c
    by_cases hu : m.role = Role.user
    · refine ⟨sectionsGo rest (some ⟨m.id, m, []⟩), ?_⟩
      rw [sectionsGo_cons_user hu]
      simp [assistantsUntilUser, List.takeWhile_cons, hu]
    · by_cases ha : m.role = Role.assistant
      · obtain ⟨tail, htail⟩ :=
          ih ⟨c.id, c.userMessage, c.assistantMessages ++ [m]⟩
        refine ⟨tail, ?_⟩
        rw [sectionsGo_cons_assistant_some hu ha, htail]
        simp [assistantsUntilUser, List.takeWhile_cons, List.filter_cons,
          hu, ha]
      · obtain ⟨tail, htail⟩ := ih c
        refine ⟨tail, ?_⟩
        rw [sectionsGo_cons_other hu ha, htail]
        simp [assistantsUntilUser, List.takeWhile_cons, List.filter_cons,
          hu, ha]

/-- Processing any prefix before a user message only prepends sections
to the run started at that user message. -/
theorem sectionsGo_suffix_user {u : UIMsg} (hu : u.role = Role.user)
    (rest : List UIMsg) :
    ∀ (pre : List UIMsg) (cur : Option ChatSection),
      ∃ init, sectionsGo (pre ++ u :: rest) cur
        = init ++ sectionsGo rest (some ⟨u.id, u, []⟩) := by
  intro pre
  induction pre with
  | nil =>
    intro cur
    exact ⟨cur.toList, by rw [List.nil_append, sectionsGo_cons_user hu]⟩
  | cons m pre' ih =>
    intro cur
    by_cases hm : m.role = Role.user
    · obtain ⟨init, hinit⟩ := ih (some ⟨m.id, m, []⟩)
      refine ⟨cur.toList ++ init, ?_⟩
      rw [List.cons_append, sectionsGo_cons_user hm, hinit, List.append_assoc]
    · by_cases ha : m.role = Role.assistant
      · cases cur with
        | some c =>
          obtain ⟨init, hinit⟩ :=
            ih (some ⟨c.id, c.userMessage, c.assistantMessages ++ [m]⟩)
          exact ⟨init, by
            rw [List.cons_append, sectionsGo_cons_assistant_some hm ha, hinit]⟩
        | none =>
          obtain ⟨init, hinit⟩ := ih none
          exact ⟨init, by
            rw [List.cons_append, sectionsGo_cons_assistant_none hm ha, hinit]⟩
      · obtain ⟨init, hinit⟩ := ih cur
        exact ⟨init, by
          rw [List.cons_append, sectionsGo_cons_other hm ha, hinit]⟩

/-- `takeWhile` passes through a prefix on which the predicate holds
everywhere. -/
theorem takeWhile_append_all {α : Type} (p : α → Bool) :
    ∀ (l₁ l₂ : List α), (∀ x ∈ l₁, p x = true) →
      (l₁ ++ l₂).takeWhile p = l₁ ++ l₂.takeWhile p := by
  intro l₁
  induction l₁ with
  | nil => intro l₂ _; simp
  | cons a l ih =>
    intro l₂ h
    rw [List.cons_append, List.takeWhile_cons, if_pos (h a (by simp)),
      ih l₂ (fun x hx => h x (by simp [hx])), List.cons_append]

/-- An assistant message preceded only by non-user messages belongs to
the assistants collected up to the next user message. -/
theorem mem_assistantsUntilUser (mid : List UIMsg) (a : UIMsg)
    (post : List UIMsg)
    (hmid : ∀ m ∈ mid, m.role ≠ Role.user) (ha : a.role = Role.assistant) :
    a ∈ assistantsUntilUser (mid ++ a :: post) := by
  unfold assistantsUntilUser
  rw [takeWhile_append_all _ mid _ (fun x hx => by simp [hmid x hx]),
    List.takeWhile_cons, if_pos (by simp [ha])]
  refine List.mem_filter.mpr ⟨?_, by simp [ha]⟩
  exact List.mem_append.mpr (Or.inr (by simp))

/-- C4: `buildSections` is a pure, deterministic partition — re-running
yields the same output; each section's id is its user message's id;
sections hold only user-led groups of assistant messages; the sections'
user messages are exactly the log's user messages in order; the
concatenation of the sections' assistant lists is exactly the log's
assistant messages from the first user message on (so assistant and
other messages before the first user message appear in no section, and
every assistant message after one appears exactly once); and an
assistant message lands in the section led by the nearest preceding
user message. -/
theorem C4_buildSections_partition (messages : List UIMsg) :
    buildSections messages = buildSections messages ∧
    (∀ s ∈ buildSections messages, s.id = s.userMessage.id) ∧
    (∀ s ∈ buildSections messages, s.userMessage.role = Role.user ∧
      ∀ a ∈ s.assistantMessages, a.role = Role.assistant) ∧
    ((buildSections messages).map (fun s => s.userMessage)
      = messages.filter (fun m => m.role = Role.user)) ∧
    ((buildSections messages).flatMap (fun s => s.assistantMessages)
      = (messages.dropWhile (fun m => !(m.role = Role.user))).filter
          (fun m => m.role = Role.assistant)) ∧
    (∀ pre u mid a post,
      messages = pre ++ u :: (mid ++ a :: post) →
      u.role = Role.user → a.role = Role.assistant →
      (∀ m ∈ mid, m.role ≠ Role.user) →
      ∃ s ∈ buildSections messages,
        s.id = u.id ∧ s.userMessage = u ∧ a ∈ s.assistantMessages) := by
  have hmap := sectionsGo_none_map_user messages
  have hflat := sectionsGo_none_flat messages
  rw [← buildSections_eq_go] at hmap hflat
  refine ⟨rfl, ?_, ?_, hmap, hflat, ?_⟩
  · rw [buildSections_eq_go]
    exact sectionsGo_id_inv messages none (by simp)
  · intro s hs
    constructor
    · have hm : s.userMessage
          ∈ (buildSections messages).map (fun s => s.userMessage) :=
        List.mem_map_of_mem _ hs
      rw [hmap] at hm
      exact of_decide_eq_true (List.mem_filter.mp hm).2
    · intro a hax
      have hm : a ∈ (buildSections messages).flatMap
          (fun s => s.assistantMessages) :=
        List.mem_flatMap.mpr ⟨s, hs, hax⟩
      rw [hflat] at hm
      exact of_decide_eq_true (List.mem_filter.mp hm).2
  · rintro pre u mid a post rfl hu hassist hmid
    obtain ⟨init, hinit⟩ := sectionsGo_suffix_user hu (mid ++ a :: post) pre none
    obtain ⟨tail, htail⟩ := sectionsGo_some_head (mid ++ a :: post) ⟨u.id, u, []⟩
    refine ⟨⟨u.id, u, [] ++ assistantsUntilUser (mid ++ a :: post)⟩, ?_, rfl,
      rfl, ?_⟩
    · rw [buildSections_eq_go, hinit, htail]
      exact List.mem_append.mpr (Or.inr (List.mem_cons_self _ _))
    · simpa using mem_assistantsUntilUser mid a post hmid hassist

/-- Witness for C4: the claim-C4 theorem's nearest-preceding-user
conjunct instantiated at a concrete two-message log. -/
theorem C4_witness :
    ∃ s ∈ buildSections
        [⟨"u1", Role.user, "q", [], none⟩,
         ⟨"a1", Role.assistant, "r", [], none⟩],
      s.id = "u1" ∧ s.userMessage = ⟨"u1", Role.user, "q", [], none⟩ ∧
        (⟨"a1", Role.assistant, "r", [], none⟩ : UIMsg)
          ∈ s.assistantMessages :=
  (C4_buildSections_partition
      [⟨"u1", Role.user, "q", [], none⟩,
       ⟨"a1", Role.assistant, "r", [], none⟩]).2.2.2.2.2
    [] ⟨"u1", Role.user, "q", [], none⟩ [] ⟨"a1", Role.assistant, "r", [], none⟩
    [] rfl rfl rfl (by simp)
